import Mathlib

/-!
Verification of the Sentiment-Analysis analytics API.

The repository exposes read-only analytics endpoints over a table of
mental-health text records.  We shallowly embed the route handlers of
`modules/items/routes/analytics.py` and `modules/items/routes/readItem.py`:
the database is a list of records, SQLAlchemy query combinators
(`filter`, `group_by`, `order_by`, `offset`, `limit`, `first`) become the
corresponding list operations, Python dicts become association lists in
insertion order, and Python floats produced by `/ 2` and `round(_, 2)`
become rationals.
-/

set_option maxHeartbeats 1000000
set_option maxRecDepth 100000

namespace SentimentAnalysis

/-- A row of the `mental_health_responses` table: columns
`{id, statement, clean_statement, status}`, `id` the primary key.
`clean_statement` and `status` are nullable. -/
structure Record where
  id : Int
  statement : String
  clean_statement : Option String
  status : Option String
deriving DecidableEq, Repr

/-- The SQL filter `status IS NOT NULL AND status != ''` used by the
distribution query (`analytics.py` lines 46-49).  SQL `NULL != ''` is not
true, so NULL rows are dropped either way. -/
def statusOk (r : Record) : Bool :=
  match r.status with
  | none => false
  | some s => s != ""

/-- Python's whitespace test (`str.isspace` on the ASCII range): the
characters stripped by `str.strip()` and split on by `str.split()`. -/
def pySpace (c : Char) : Bool :=
  c = ' ' || c = '\t' || c = '\n' || c = '\x0d' || c = '\x0b' || c = '\x0c'

/-- Python `str.strip()`: remove leading and trailing whitespace. -/
def pyStrip (s : String) : String :=
  String.mk (((s.data.dropWhile pySpace).reverse.dropWhile pySpace).reverse)

/-- One step of SQL `GROUP BY status` with `COUNT(id)`: bump the count of
key `k` in an association list, keeping first-occurrence order. -/
def bump (l : List (String × Nat)) (k : String) : List (String × Nat) :=
  match l with
  | [] => [(k, 1)]
  | (k', c) :: rest => if k' = k then (k', c + 1) :: rest else (k', c) :: bump rest k

/-- SQL `SELECT status, COUNT(id) ... GROUP BY status` over the filtered
rows, groups listed in first-occurrence order. -/
def groupCount (statuses : List String) : List (String × Nat) :=
  statuses.foldl bump []

/-- Python dict assignment `d[k] = v`: overwrite the value at `k` if the
key is present (keeping its position), otherwise append the pair. -/
def assocSet (l : List (String × Nat)) (k : String) (v : Nat) : List (String × Nat) :=
  match l with
  | [] => [(k, v)]
  | (k', v') :: rest => if k' = k then (k, v) :: rest else (k', v') :: assocSet rest k v

/-- Embeds `sentiment_distribution` (`analytics.py` lines 36-61): fetch
`(status, count)` grouped pairs for rows with non-NULL, non-empty status,
then for each pair set `result[status.strip()] = count`, skipping entries
whose stripped status is empty.  The dict is an association list in
insertion order. -/
def sentiment_distribution (db : List Record) : List (String × Nat) :=
  let statuses := (db.filter statusOk).map (fun r => r.status.getD "")
  let grouped := groupCount statuses
  grouped.foldl
    (fun res p =>
      let status_norm := pyStrip p.1
      if status_norm = "" then res else assocSet res status_norm p.2)
    []

/-- The SQL filter `clean_statement IS NOT NULL AND clean_statement != ''`
shared by the top-words, length-stats and examples queries. -/
def cleanOk (r : Record) : Bool :=
  match r.clean_statement with
  | none => false
  | some t => t != ""

/-- The fixed stopword set `STOPWORDS` of `analytics.py` lines 68-92,
verbatim. -/
def STOPWORDS : List String :=
  ["i", "me", "my", "myself", "we", "our", "ours", "ourselves",
   "you", "your", "yours", "yourself", "yourselves",
   "he", "him", "his", "himself",
   "she", "her", "hers", "herself",
   "it", "its", "itself",
   "they", "them", "their", "theirs", "themselves",
   "what", "which", "who", "whom",
   "this", "that", "these", "those",
   "am", "is", "are", "was", "were", "be", "been", "being",
   "have", "has", "had", "having",
   "do", "does", "did", "doing",
   "a", "an", "the",
   "and", "but", "if", "or", "because", "as", "until", "while",
   "of", "at", "by", "for", "with", "about", "against",
   "between", "into", "through", "during", "before", "after",
   "above", "below", "to", "from", "up", "down", "in", "out",
   "on", "off", "over", "under",
   "again", "further", "then", "once",
   "here", "there", "when", "where", "why", "how",
   "all", "any", "both", "each", "few", "more", "most", "other",
   "some", "such", "no", "nor", "not", "only", "own",
   "same", "so", "than", "too", "very",
   "can", "will", "just", "should", "now"]

/-- A word character for the regex `\b\w+\b` (`WORD_RE`, `analytics.py`
line 94): letter, digit or underscore (modelled on the ASCII range). -/
def isWordChar (c : Char) : Bool :=
  c.isAlphanum || c = '_'

/-- Embeds `WORD_RE.findall(text.lower())` (`analytics.py` line 145): lowercase
the text, then all maximal runs of word characters in order of
occurrence. -/
def tokenize (text : String) : List String :=
  (((text.data.map Char.toLower).splitOnP (fun c => !isWordChar c)).filter
    (fun l => !l.isEmpty)).map String.mk

/-- The stopword filter of `analytics.py` lines 146-149: keep `w` iff
`w not in STOPWORDS and len(w) > 2`. -/
def filterWords (ws : List String) : List String :=
  ws.filter (fun w => !STOPWORDS.contains w && decide (w.length > 2))

/-- Embeds `counter.update(words)` accumulated over the texts of one group
(`Counter` semantics: counts keyed in first-insertion order). -/
def countTexts (texts : List String) : List (String × Nat) :=
  texts.foldl (fun counter text => (filterWords (tokenize text)).foldl bump counter) []

/-- Count-descending comparison on `(word, count)` pairs, the sort key of
`Counter.most_common`. -/
def countGe (a b : String × Nat) : Prop := b.2 ≤ a.2

instance : DecidableRel countGe := fun a b => Nat.decLe b.2 a.2

instance : IsTotal (String × Nat) countGe :=
  ⟨fun a b => Nat.le_total b.2 a.2⟩

instance : IsTrans (String × Nat) countGe :=
  ⟨fun _ _ _ hab hbc => le_trans hbc hab⟩

/-- Embeds `counter.most_common(n)`: sort by count descending — stable, so equal
counts stay in first-insertion order (CPython's documented
`heapq.nlargest` behaviour) — and keep the first `n`. -/
def mostCommon (n : Nat) (counter : List (String × Nat)) : List (String × Nat) :=
  (List.insertionSort countGe counter).take n

/-- Python `defaultdict(list)` / `dict.setdefault(k, []).append(v)`: append
`v` to the list at key `k`, creating the key at the end on first use. -/
def multiAppend {β : Type} (l : List (String × List β)) (k : String) (v : β) :
    List (String × List β) :=
  match l with
  | [] => [(k, [v])]
  | (k', vs) :: rest =>
    if k' = k then (k', vs ++ [v]) :: rest else (k', vs) :: multiAppend rest k v

/-- Accumulate a stream of key/value pairs into per-key lists, keys in
first-occurrence order. -/
def accumulate {β : Type} (pairs : List (String × β)) : List (String × List β) :=
  pairs.foldl (fun acc p => multiAppend acc p.1 p.2) []

/-- The row stream feeding `texts_by_status` in `top_words_per_category`
(`analytics.py` lines 118-137): SQL-filter the table, then per row strip
the status, skip empty, and pair it with the clean text. -/
def twRows (db : List Record) : List (String × String) :=
  (db.filter (fun r => statusOk r && cleanOk r)).filterMap
    (fun r =>
      let status_norm := pyStrip (r.status.getD "")
      if status_norm = "" then none
      else some (status_norm, r.clean_statement.getD ""))

/-- Embeds `texts_by_status` of `top_words_per_category`. -/
def texts_by_status (db : List Record) : List (String × List String) :=
  accumulate (twRows db)

/-- Embeds `top_words_per_category` (`analytics.py` lines 105-158): for each
status group, count the filtered tokens of all its texts and report the
`top_n` most common `(word, freq)` pairs. -/
def top_words_per_category (db : List Record) (top_n : Nat) :
    List (String × List (String × Nat)) :=
  (texts_by_status db).map (fun p => (p.1, mostCommon top_n (countTexts p.2)))

/-- Embeds `len(text.split())` (`analytics.py` line 195): number of maximal
whitespace-free runs, i.e. Python's no-argument `split`. -/
def wordCount (s : String) : Nat :=
  ((s.data.splitOnP pySpace).filter (fun l => !l.isEmpty)).length

/-- The row stream feeding `lengths_by_status` in
`length_stats_per_category` (`analytics.py` lines 173-201): SQL-filter the
table, strip the status, skip empty, compute the word count and drop it
if it is `0` or exceeds `400`. -/
def lsRows (db : List Record) : List (String × Nat) :=
  (db.filter (fun r => statusOk r && cleanOk r)).filterMap
    (fun r =>
      let status_norm := pyStrip (r.status.getD "")
      if status_norm = "" then none
      else
        let n_words := wordCount (r.clean_statement.getD "")
        if n_words = 0 || decide (n_words > 400) then none
        else some (status_norm, n_words))

/-- Embeds `lengths_by_status` of `length_stats_per_category`. -/
def lengths_by_status (db : List Record) : List (String × List Nat) :=
  accumulate (lsRows db)

/-- The median computation of `analytics.py` lines 209-216: sort
ascending, take the middle element for odd length and the mean of the two
middle elements for even length (Python `/` is exact division, embedded
in `ℚ`). -/
def pyMedian (l : List Nat) : ℚ :=
  let lengths_sorted := List.insertionSort (· ≤ ·) l
  let m := lengths_sorted.length
  let mid := m / 2
  if m % 2 = 1 then (lengths_sorted.getD mid 0 : ℚ)
  else ((lengths_sorted.getD (mid - 1) 0 : ℚ) + (lengths_sorted.getD mid 0 : ℚ)) / 2

/-- Round a rational to the nearest integer, ties to even — the rounding
of Python's `round`. -/
def roundHalfEven (q : ℚ) : ℤ :=
  let f := q.floor
  let r := q - (f : ℚ)
  if 2 * r.num < (r.den : ℤ) then f
  else if (r.den : ℤ) < 2 * r.num then f + 1
  else if f % 2 = 0 then f else f + 1

/-- Embeds `round(float(median), 2)` (`analytics.py` line 218): round to two
decimal places (the medians reaching it are exact multiples of `1/2`, on
which binary floats are exact, so rational rounding is faithful). -/
def round2 (q : ℚ) : ℚ :=
  (roundHalfEven (q * 100) : ℚ) / 100

/-- Embeds `length_stats_per_category` (`analytics.py` lines 167-220): group the
surviving word counts by stripped status, skip empty groups, and report
the rounded median per group. -/
def length_stats_per_category (db : List Record) : List (String × ℚ) :=
  ((lengths_by_status db).filter (fun p => !p.2.isEmpty)).map
    (fun p => (p.1, round2 (pyMedian p.2)))

/-- Ascending comparison of rows by primary key, the key of
`ORDER BY id`. -/
def idLe (a b : Record) : Prop := a.id ≤ b.id

instance : DecidableRel idLe := fun a b => Int.decLe a.id b.id

instance : IsTotal Record idLe :=
  ⟨fun a b => Int.le_total a.id b.id⟩

instance : IsTrans Record idLe :=
  ⟨fun _ _ _ hab hbc => le_trans hab hbc⟩

/-- Embeds SQL `ORDER BY id` (ascending): a stable sort of the rows by `id`. -/
def sortById (l : List Record) : List Record :=
  List.insertionSort idLe l

/-- Embeds `examples_by_category` (`analytics.py` lines 227-249): rows whose
status equals the parameter exactly (SQL `=`, so NULL never matches) and
whose clean text is non-NULL and non-empty, ordered by `id`, limited to
`n`; then the Python comprehension keeps the truthy texts. -/
def examples_by_category (db : List Record) (status : String) (n : Nat) : List String :=
  let rows := (sortById (db.filter (fun r => r.status == some status && cleanOk r))).take n
  (rows.map (fun r => r.clean_statement.getD "")).filter (fun txt => txt != "")

/-- Embeds `read_all_responses` (`readItem.py` lines 19-37): the whole table
ordered by `id`, with `OFFSET skip LIMIT limit`. -/
def read_all_responses (db : List Record) (skip limit : Nat) : List Record :=
  ((sortById db).drop skip).take limit

/-- Embeds `read_response_by_id` (`readItem.py` lines 41-55): the first row with
the given id, else HTTP 404 with a message embedding the id. -/
def read_response_by_id (db : List Record) (response_id : Int) :
    Except (Nat × String) Record :=
  match db.find? (fun r => r.id == response_id) with
  | some r => Except.ok r
  | none =>
    Except.error
      (404, "Response dengan id=" ++ toString response_id ++ " tidak ditemukan.")

/-- The values a key receives from a pair stream: specification-side view
of what `accumulate` collects per key. -/
def groupVals {β : Type} (pairs : List (String × β)) (c : String) : List β :=
  (pairs.filter (fun p => p.1 == c)).map Prod.snd

/-- A text of `n` words (`n` copies of `"a"` separated by single
spaces). -/
def mkWords (n : Nat) : String :=
  String.intercalate " " (List.replicate n "a")

/-- The distribution test table: statuses
`["Anxiety", " Anxiety ", "Depression", "", NULL]`. -/
def C1db : List Record :=
  [⟨1, "", none, some "Anxiety"⟩, ⟨2, "", none, some " Anxiety "⟩,
   ⟨3, "", none, some "Depression"⟩, ⟨4, "", none, some ""⟩, ⟨5, "", none, none⟩]

/-- A second distribution table where the collapsing groups have unequal
counts: statuses `[" Anxiety ", "Anxiety", "Anxiety"]`. -/
def C1db2 : List Record :=
  [⟨1, "", none, some " Anxiety "⟩, ⟨2, "", none, some "Anxiety"⟩,
   ⟨3, "", none, some "Anxiety"⟩]

/-- The length-stats test table: one category `"X"` with texts of 3, 5, 7,
401 and 0 words. -/
def C2db : List Record :=
  [⟨1, "", some (mkWords 3), some "X"⟩, ⟨2, "", some (mkWords 5), some "X"⟩,
   ⟨3, "", some (mkWords 7), some "X"⟩, ⟨4, "", some (mkWords 401), some "X"⟩,
   ⟨5, "", some " ", some "X"⟩]

/-- The top-words test table: category `"X"` with texts
`"anxiety panic anxiety"` and `"panic worry"`. -/
def C3db : List Record :=
  [⟨1, "", some "anxiety panic anxiety", some "X"⟩,
   ⟨2, "", some "panic worry", some "X"⟩]

/-- The example-sampler test table: three `"Anxiety"` rows with ids
`12, 10, 11` stored out of order, plus an unrelated row. -/
def C4db : List Record :=
  [⟨12, "", some "t12", some "Anxiety"⟩, ⟨10, "", some "t10", some "Anxiety"⟩,
   ⟨11, "", some "t11", some "Anxiety"⟩, ⟨7, "", some "t7", some "Calm"⟩]

/-! ## Association-list machinery -/

theorem lookup_pair_cons {β : Type} (k c : String) (b : β) (es : List (String × β)) :
    List.lookup c ((k, b) :: es) = if c = k then some b else List.lookup c es := by
  by_cases h : c = k
  · simp [List.lookup, h]
  · have hb : (c == k) = false := beq_eq_false_iff_ne.mpr h
    simp [List.lookup, hb, h]

theorem lookup_multiAppend {β : Type} (l : List (String × List β)) (k c : String) (v : β) :
    List.lookup c (multiAppend l k v) =
      if c = k then some (((List.lookup c l).getD []) ++ [v]) else List.lookup c l := by
  induction l with
  | nil =>
    by_cases h : c = k <;> simp [multiAppend, lookup_pair_cons, h]
  | cons p rest ih =>
    obtain ⟨k', vs⟩ := p
    by_cases hk : k' = k
    · subst hk
      by_cases hc : c = k' <;> simp [multiAppend, lookup_pair_cons, hc]
    · by_cases hc : c = k'
      · subst hc
        simp [multiAppend, hk, lookup_pair_cons]
      · simp [multiAppend, hk, lookup_pair_cons, hc, ih]

theorem getD_lookup_foldl {β : Type} (pairs : List (String × β))
    (init : List (String × List β)) (c : String) :
    (List.lookup c (pairs.foldl (fun acc p => multiAppend acc p.1 p.2) init)).getD [] =
      (List.lookup c init).getD [] ++ groupVals pairs c := by
  induction pairs generalizing init with
  | nil => simp [groupVals]
  | cons p rest ih =>
    rw [List.foldl_cons, ih]
    by_cases h : c = p.1
    · have hg : groupVals (p :: rest) c = p.2 :: groupVals rest c := by
        simp [groupVals, List.filter_cons, h.symm]
      rw [hg, lookup_multiAppend, if_pos h]
      simp
    · have hg : groupVals (p :: rest) c = groupVals rest c := by
        have : ¬ p.1 = c := fun hh => h hh.symm
        simp [groupVals, List.filter_cons, this]
      rw [hg, lookup_multiAppend, if_neg h]

theorem lookup_foldl_eq_none {β : Type} (pairs : List (String × β))
    (init : List (String × List β)) (c : String) :
    List.lookup c (pairs.foldl (fun acc p => multiAppend acc p.1 p.2) init) = none ↔
      List.lookup c init = none ∧ groupVals pairs c = [] := by
  induction pairs generalizing init with
  | nil => simp [groupVals]
  | cons p rest ih =>
    rw [List.foldl_cons, ih]
    by_cases h : c = p.1
    · have hg : groupVals (p :: rest) c = p.2 :: groupVals rest c := by
        simp [groupVals, List.filter_cons, h.symm]
      rw [hg, lookup_multiAppend, if_pos h]
      simp
    · have hg : groupVals (p :: rest) c = groupVals rest c := by
        have : ¬ p.1 = c := fun hh => h hh.symm
        simp [groupVals, List.filter_cons, this]
      rw [hg, lookup_multiAppend, if_neg h]

theorem lookup_accumulate {β : Type} [DecidableEq β] (pairs : List (String × β)) (c : String) :
    List.lookup c (accumulate pairs) =
      if groupVals pairs c = [] then none else some (groupVals pairs c) := by
  have hnone := lookup_foldl_eq_none pairs [] c
  have hgetD := getD_lookup_foldl pairs [] c
  simp only [List.lookup] at hnone hgetD
  by_cases h : groupVals pairs c = []
  · rw [if_pos h]
    exact hnone.mpr ⟨trivial, h⟩
  · rw [if_neg h]
    unfold accumulate
    rcases hlk : List.lookup c (pairs.foldl (fun acc p => multiAppend acc p.1 p.2) []) with
      _ | vs
    · exact absurd ((hnone.mp hlk).2) h
    · rw [hlk] at hgetD
      simp at hgetD
      rw [hlk, hgetD]

theorem lookup_map_snd {α β : Type} (l : List (String × α)) (f : α → β) (c : String) :
    List.lookup c (l.map (fun p => (p.1, f p.2))) = (List.lookup c l).map f := by
  induction l with
  | nil => simp
  | cons p rest ih =>
    obtain ⟨k, a⟩ := p
    by_cases h : c = k <;> simp [lookup_pair_cons, h, ih]

theorem multiAppend_ne_nil {β : Type} (l : List (String × List β)) (k : String) (v : β)
    (h : ∀ p ∈ l, p.2 ≠ []) : ∀ p ∈ multiAppend l k v, p.2 ≠ [] := by
  induction l with
  | nil =>
    intro p hp
    simp [multiAppend] at hp
    subst hp
    simp
  | cons q rest ih =>
    intro p hp
    by_cases hq : q.1 = k
    · obtain ⟨k', vs⟩ := q
      simp only at hq
      simp [multiAppend, hq] at hp
      rcases hp with hp | hp
      · subst hp; simp
      · exact h _ (List.mem_cons_of_mem _ hp)
    · obtain ⟨k', vs⟩ := q
      simp only at hq
      simp [multiAppend, hq] at hp
      rcases hp with hp | hp
      · subst hp
        exact h (k', vs) (List.mem_cons_self _ _)
      · exact ih (fun q hq' => h q (List.mem_cons_of_mem _ hq')) p hp

theorem foldl_multiAppend_ne_nil {β : Type} (pairs : List (String × β))
    (init : List (String × List β)) (h : ∀ p ∈ init, p.2 ≠ []) :
    ∀ p ∈ pairs.foldl (fun acc p => multiAppend acc p.1 p.2) init, p.2 ≠ [] := by
  induction pairs generalizing init with
  | nil => simpa using h
  | cons q rest ih =>
    rw [List.foldl_cons]
    exact ih _ (multiAppend_ne_nil init q.1 q.2 h)

theorem accumulate_ne_nil {β : Type} (pairs : List (String × β)) :
    ∀ p ∈ accumulate pairs, p.2 ≠ [] :=
  foldl_multiAppend_ne_nil pairs [] (by simp)

/-- What the length-stats endpoint reports for a category: nothing if no
surviving word count, else the rounded median of the surviving word
counts. -/
theorem length_stats_lookup (db : List Record) (c : String) :
    List.lookup c (length_stats_per_category db) =
      if groupVals (lsRows db) c = [] then none
      else some (round2 (pyMedian (groupVals (lsRows db) c))) := by
  unfold length_stats_per_category
  have hfil : (lengths_by_status db).filter (fun p => !p.2.isEmpty) = lengths_by_status db := by
    apply List.filter_eq_self.mpr
    intro p hp
    have hne : p.2 ≠ [] := accumulate_ne_nil (lsRows db) p hp
    simpa using hne
  rw [hfil]
  have hmap :
      List.lookup c ((lengths_by_status db).map (fun p => (p.1, round2 (pyMedian p.2)))) =
        (List.lookup c (lengths_by_status db)).map (fun vs => round2 (pyMedian vs)) :=
    lookup_map_snd (lengths_by_status db) (fun vs => round2 (pyMedian vs)) c
  rw [hmap]
  unfold lengths_by_status
  rw [lookup_accumulate]
  by_cases h : groupVals (lsRows db) c = []
  · rw [if_pos h, if_pos h]
    rfl
  · rw [if_neg h, if_neg h]
    rfl

/-- What the top-words endpoint reports for a category: nothing if no
qualifying row, else `most_common top_n` of the accumulated counter of the
category's texts. -/
theorem top_words_lookup (db : List Record) (n : Nat) (c : String) :
    List.lookup c (top_words_per_category db n) =
      if groupVals (twRows db) c = [] then none
      else some (mostCommon n (countTexts (groupVals (twRows db) c))) := by
  unfold top_words_per_category
  have hmap :
      List.lookup c ((texts_by_status db).map (fun p => (p.1, mostCommon n (countTexts p.2)))) =
        (List.lookup c (texts_by_status db)).map (fun ts => mostCommon n (countTexts ts)) :=
    lookup_map_snd (texts_by_status db) (fun ts => mostCommon n (countTexts ts)) c
  rw [hmap]
  unfold texts_by_status
  rw [lookup_accumulate]
  by_cases h : groupVals (twRows db) c = []
  · rw [if_pos h, if_pos h]
    rfl
  · rw [if_neg h, if_neg h]
    rfl

theorem groupVals_ne_nil_iff {β : Type} (pairs : List (String × β)) (c : String) :
    groupVals pairs c ≠ [] ↔ ∃ v, (c, v) ∈ pairs := by
  unfold groupVals
  rw [Ne, List.map_eq_nil_iff, List.filter_eq_nil_iff]
  push_neg
  constructor
  · rintro ⟨p, hp, hpc⟩
    have hc : p.1 = c := by simpa using hpc
    exact ⟨p.2, by rwa [← hc, Prod.mk.eta]⟩
  · rintro ⟨v, hv⟩
    exact ⟨(c, v), hv, by simp⟩

theorem mem_twRows (db : List Record) (c t : String) :
    (c, t) ∈ twRows db ↔
      ∃ r ∈ db, statusOk r = true ∧ cleanOk r = true ∧
        pyStrip (r.status.getD "") = c ∧ c ≠ "" ∧ r.clean_statement.getD "" = t := by
  unfold twRows
  rw [List.mem_filterMap]
  constructor
  · rintro ⟨r, hr, hmap⟩
    rw [List.mem_filter] at hr
    dsimp only at hmap
    split at hmap
    · exact absurd hmap (by simp)
    next hs =>
      simp only [Option.some.injEq, Prod.mk.injEq] at hmap
      refine ⟨r, hr.1, ((Bool.and_eq_true _ _).mp hr.2).1,
        ((Bool.and_eq_true _ _).mp hr.2).2, hmap.1, ?_, hmap.2⟩
      rw [← hmap.1]; exact hs
  · rintro ⟨r, hr, hok, hcl, hstrip, hc, htxt⟩
    refine ⟨r, ?_, ?_⟩
    · rw [List.mem_filter]
      exact ⟨hr, by rw [hok, hcl]; rfl⟩
    · dsimp only
      rw [hstrip, if_neg hc, htxt]

theorem mem_lsRows (db : List Record) (c : String) (n : Nat) :
    (c, n) ∈ lsRows db ↔
      ∃ r ∈ db, statusOk r = true ∧ cleanOk r = true ∧
        pyStrip (r.status.getD "") = c ∧ c ≠ "" ∧
        wordCount (r.clean_statement.getD "") = n ∧ 1 ≤ n ∧ n ≤ 400 := by
  unfold lsRows
  rw [List.mem_filterMap]
  constructor
  · rintro ⟨r, hr, hmap⟩
    rw [List.mem_filter] at hr
    dsimp only at hmap
    split at hmap
    · exact absurd hmap (by simp)
    next hs =>
      split at hmap
      · exact absurd hmap (by simp)
      next hw =>
        rw [Bool.or_eq_true, decide_eq_true_iff, decide_eq_true_iff] at hw
        push_neg at hw
        simp only [Option.some.injEq, Prod.mk.injEq] at hmap
        refine ⟨r, hr.1, ((Bool.and_eq_true _ _).mp hr.2).1,
          ((Bool.and_eq_true _ _).mp hr.2).2, hmap.1, ?_, hmap.2, ?_, ?_⟩
        · rw [← hmap.1]; exact hs
        · rw [← hmap.2]
          exact Nat.one_le_iff_ne_zero.mpr hw.1
        · rw [← hmap.2]
          exact hw.2
  · rintro ⟨r, hr, hok, hcl, hstrip, hc, hwc, hn1, hn400⟩
    refine ⟨r, ?_, ?_⟩
    · rw [List.mem_filter]
      exact ⟨hr, by rw [hok, hcl]; rfl⟩
    · have hcond : (decide (wordCount (r.clean_statement.getD "") = 0) ||
          decide (wordCount (r.clean_statement.getD "") > 400)) = false := by
        rw [hwc]
        simp only [Bool.or_eq_false_iff, decide_eq_false_iff_not]
        exact ⟨by omega, by omega⟩
      dsimp only
      rw [hstrip, if_neg hc, hcond]
      simp [hwc]

/-! ## Rounding and median arithmetic -/

theorem ratFloor_eq_intFloor (q : ℚ) : q.floor = ⌊q⌋ := by
  rw [Rat.floor_def', Rat.floor_def]

theorem roundHalfEven_intCast (k : ℤ) : roundHalfEven (k : ℚ) = k := by
  have hf : ((k : ℚ)).floor = k := by
    rw [ratFloor_eq_intFloor]; exact Int.floor_intCast k
  simp only [roundHalfEven, hf, sub_self]
  norm_num

theorem round2_eq_self_of_half (a : ℤ) (q : ℚ) (h : q = (a : ℚ) / 2) : round2 q = q := by
  subst h
  unfold round2
  have h100 : (a : ℚ) / 2 * 100 = ((a * 50 : ℤ) : ℚ) := by push_cast; ring
  rw [h100, roundHalfEven_intCast]
  push_cast
  ring

theorem pyMedian_half (l : List Nat) : ∃ a : ℤ, pyMedian l = (a : ℚ) / 2 := by
  simp only [pyMedian]
  by_cases h : (List.insertionSort (· ≤ ·) l).length % 2 = 1
  · rw [if_pos h]
    refine ⟨2 * ((List.insertionSort (· ≤ ·) l).getD ((List.insertionSort (· ≤ ·) l).length / 2) 0 : ℤ), ?_⟩
    push_cast
    ring
  · rw [if_neg h]
    refine ⟨((List.insertionSort (· ≤ ·) l).getD ((List.insertionSort (· ≤ ·) l).length / 2 - 1) 0 : ℤ) +
      ((List.insertionSort (· ≤ ·) l).getD ((List.insertionSort (· ≤ ·) l).length / 2) 0 : ℤ), ?_⟩
    push_cast
    ring

theorem round2_pyMedian (l : List Nat) : round2 (pyMedian l) = pyMedian l := by
  obtain ⟨a, ha⟩ := pyMedian_half l
  exact round2_eq_self_of_half a _ ha

theorem pyMedian_bounds (l : List Nat) (hne : l ≠ []) (lo hi : Nat)
    (h : ∀ n ∈ l, lo ≤ n ∧ n ≤ hi) :
    (lo : ℚ) ≤ pyMedian l ∧ pyMedian l ≤ (hi : ℚ) := by
  have hperm : (List.insertionSort (· ≤ ·) l).Perm l := List.perm_insertionSort _ l
  have hlen : (List.insertionSort (· ≤ ·) l).length = l.length := hperm.length_eq
  have hmem : ∀ n ∈ List.insertionSort (· ≤ ·) l, lo ≤ n ∧ n ≤ hi :=
    fun n hn => h n (hperm.subset hn)
  have hpos : 0 < (List.insertionSort (· ≤ ·) l).length := by
    rw [hlen]; exact List.length_pos.mpr hne
  have hmid : (List.insertionSort (· ≤ ·) l).length / 2 <
      (List.insertionSort (· ≤ ·) l).length :=
    Nat.div_lt_self hpos (by norm_num)
  have hmid' : ∀ i, i < (List.insertionSort (· ≤ ·) l).length →
      lo ≤ (List.insertionSort (· ≤ ·) l).getD i 0 ∧
        (List.insertionSort (· ≤ ·) l).getD i 0 ≤ hi := by
    intro i hi'
    rw [List.getD_eq_getElem _ _ hi']
    exact hmem _ (List.getElem_mem hi')
  simp only [pyMedian]
  by_cases hodd : (List.insertionSort (· ≤ ·) l).length % 2 = 1
  · rw [if_pos hodd]
    have hmb := hmid' _ hmid
    exact ⟨by exact_mod_cast hmb.1, by exact_mod_cast hmb.2⟩
  · rw [if_neg hodd]
    have h2 : 2 ≤ (List.insertionSort (· ≤ ·) l).length := by omega
    have hmid1 : (List.insertionSort (· ≤ ·) l).length / 2 - 1 <
        (List.insertionSort (· ≤ ·) l).length := by omega
    have ha := hmid' _ hmid1
    have hb := hmid' _ hmid
    have ha1 : (lo : ℚ) ≤ ((List.insertionSort (· ≤ ·) l).getD
        ((List.insertionSort (· ≤ ·) l).length / 2 - 1) 0 : ℚ) := by exact_mod_cast ha.1
    have ha2 : ((List.insertionSort (· ≤ ·) l).getD
        ((List.insertionSort (· ≤ ·) l).length / 2 - 1) 0 : ℚ) ≤ hi := by exact_mod_cast ha.2
    have hb1 : (lo : ℚ) ≤ ((List.insertionSort (· ≤ ·) l).getD
        ((List.insertionSort (· ≤ ·) l).length / 2) 0 : ℚ) := by exact_mod_cast hb.1
    have hb2 : ((List.insertionSort (· ≤ ·) l).getD
        ((List.insertionSort (· ≤ ·) l).length / 2) 0 : ℚ) ≤ hi := by exact_mod_cast hb.2
    constructor <;> [linarith; linarith]

theorem mem_groupVals {β : Type} (pairs : List (String × β)) (c : String) (v : β)
    (h : v ∈ groupVals pairs c) : (c, v) ∈ pairs := by
  unfold groupVals at h
  rw [List.mem_map] at h
  obtain ⟨p, hp, rfl⟩ := h
  rw [List.mem_filter] at hp
  have hc : p.1 = c := by simpa using hp.2
  rw [← hc, Prod.mk.eta]
  exact hp.1

theorem pyMedian_357 : pyMedian [3, 5, 7] = 5 := by
  have hs : List.insertionSort (· ≤ ·) [3, 5, 7] = [3, 5, 7] := by decide
  simp only [pyMedian, hs]
  norm_num [List.getD]

theorem pyMedian_3579 : pyMedian [3, 5, 7, 9] = 6 := by
  have hs : List.insertionSort (· ≤ ·) [3, 5, 7, 9] = [3, 5, 7, 9] := by decide
  simp only [pyMedian, hs]
  norm_num [List.getD]

theorem lookup_C2db : List.lookup "X" (length_stats_per_category C2db) = some 5 := by
  rw [length_stats_lookup C2db "X"]
  have hgv : groupVals (lsRows C2db) "X" = [3, 5, 7] := by decide
  rw [hgv, if_neg (by decide : ¬([3, 5, 7] : List ℕ) = []), round2_pyMedian, pyMedian_357]

/-! ## Claims -/

/-- C1: the spec demands that distinct raw statuses collapsing under
`strip` have their counts SUMMED, and that the statuses
`["Anxiety", " Anxiety ", "Depression", "", NULL]` yield
`{"Anxiety": 2, "Depression": 1}`.  The code instead executes
`result[status_norm] = int(count)` — a last-write-wins dict assignment —
so the collapsed `" Anxiety "` group overwrites rather than adds:
the output maps `"Anxiety"` to 1, not to the claimed 2, and on a table
with group counts 1 and 2 it returns 2 instead of the sum 3. -/
theorem spec_C1_distribution_overwrite :
    sentiment_distribution C1db = [("Anxiety", 1), ("Depression", 1)] ∧
    List.lookup "Anxiety" (sentiment_distribution C1db) ≠ some 2 ∧
    sentiment_distribution C1db2 = [("Anxiety", 2)] ∧
    List.lookup "Anxiety" (sentiment_distribution C1db2) ≠ some 3 := by
  refine ⟨by decide, by decide, by decide, by decide⟩

/-- C2: length-stats excludes rows whose whitespace word count is 0 or
exceeds 400; per category the reported value is the 2-decimal-rounded
median (sorted ascending; middle element for odd count, mean of the two
middle elements for even count) of the surviving counts; `[3,5,7]` gives
5, `[3,5,7,9]` gives 6, and a 401-word text is excluded from the
computation. -/
theorem spec_C2_length_stats_median :
    (∀ db c, List.lookup c (length_stats_per_category db) =
        if groupVals (lsRows db) c = [] then none
        else some (round2 (pyMedian (groupVals (lsRows db) c)))) ∧
    (∀ db c n, (c, n) ∈ lsRows db → 1 ≤ n ∧ n ≤ 400) ∧
    pyMedian [3, 5, 7] = 5 ∧ pyMedian [3, 5, 7, 9] = 6 ∧
    wordCount (mkWords 401) = 401 ∧
    lsRows C2db = [("X", 3), ("X", 5), ("X", 7)] ∧
    List.lookup "X" (length_stats_per_category C2db) = some 5 := by
  refine ⟨length_stats_lookup, ?_, pyMedian_357, pyMedian_3579, by decide, by decide,
    lookup_C2db⟩
  intro db c n hmem
  obtain ⟨r, _, _, _, _, _, _, h1, h400⟩ := (mem_lsRows db c n).mp hmem
  exact ⟨h1, h400⟩

/-- Witness for C2 at the concrete table `C2db` and category `"X"`. -/
theorem spec_C2_witness :
    (1 ≤ 3 ∧ 3 ≤ 400) ∧
    List.lookup "X" (length_stats_per_category C2db) =
      (if groupVals (lsRows C2db) "X" = [] then none
       else some (round2 (pyMedian (groupVals (lsRows C2db) "X")))) :=
  ⟨spec_C2_length_stats_median.2.1 C2db "X" 3 (by decide),
   spec_C2_length_stats_median.1 C2db "X"⟩

/-- C9: every median in the length-stats output lies between 1 and 400
inclusive, because only word counts in `1..400` survive filtering and
the rounded median of a non-empty list of such counts stays in range. -/
theorem spec_C9_median_range :
    ∀ db c v, List.lookup c (length_stats_per_category db) = some v →
      (1 : ℚ) ≤ v ∧ v ≤ 400 := by
  intro db c v hv
  rw [length_stats_lookup] at hv
  by_cases h : groupVals (lsRows db) c = []
  · rw [if_pos h] at hv
    exact absurd hv (by simp)
  · rw [if_neg h] at hv
    have hv' : round2 (pyMedian (groupVals (lsRows db) c)) = v := Option.some.inj hv
    have helems : ∀ m ∈ groupVals (lsRows db) c, 1 ≤ m ∧ m ≤ 400 := by
      intro m hm
      obtain ⟨r, _, _, _, _, _, _, h1, h400⟩ :=
        (mem_lsRows db c m).mp (mem_groupVals (lsRows db) c m hm)
      exact ⟨h1, h400⟩
    have hbounds := pyMedian_bounds (groupVals (lsRows db) c) h 1 400 helems
    rw [round2_pyMedian] at hv'
    rw [← hv']
    exact ⟨by simpa using hbounds.1, by simpa using hbounds.2⟩

/-- Witness for C9 at the concrete table `C2db`, category `"X"`,
median 5. -/
theorem spec_C9_witness : (1 : ℚ) ≤ 5 ∧ (5 : ℚ) ≤ 400 :=
  spec_C9_median_range C2db "X" 5 lookup_C2db

/-- C3: for `top_n` in `1..50`, every per-category list of
`(word, frequency)` pairs has length at most `top_n` and is sorted by
frequency descending; the tie-break is the fixed first-encountered order
(the embedding is a pure function of the rows, so identical rows give
identical orderings), exhibited on the spec's tie example where
`"anxiety"` (count 2, seen first) precedes `"panic"` (count 2). -/
theorem spec_C3_top_words_order :
    (∀ db top_n, 1 ≤ top_n → top_n ≤ 50 → ∀ c l,
        List.lookup c (top_words_per_category db top_n) = some l →
        l.length ≤ top_n ∧ l.Pairwise (fun a b : String × Nat => b.2 ≤ a.2)) ∧
    top_words_per_category C3db 2 = [("X", [("anxiety", 2), ("panic", 2)])] := by
  constructor
  · intro db top_n _ _ c l hl
    rw [top_words_lookup] at hl
    by_cases h : groupVals (twRows db) c = []
    · rw [if_pos h] at hl
      exact absurd hl (by simp)
    · rw [if_neg h] at hl
      have hl' : mostCommon top_n (countTexts (groupVals (twRows db) c)) = l :=
        Option.some.inj hl
      rw [← hl']
      constructor
      · exact List.length_take_le _ _
      · have hsorted : (List.insertionSort countGe
            (countTexts (groupVals (twRows db) c))).Pairwise countGe :=
          List.sorted_insertionSort countGe _
        have hsub : (mostCommon top_n (countTexts (groupVals (twRows db) c))).Sublist
            (List.insertionSort countGe (countTexts (groupVals (twRows db) c))) :=
          List.take_sublist _ _
        exact (hsorted.sublist hsub).imp (fun h => h)
  · decide

/-- Witness for C3 at the concrete table `C3db`, `top_n = 2`,
category `"X"`. -/
theorem spec_C3_witness :
    ([("anxiety", 2), ("panic", 2)] : List (String × Nat)).length ≤ 2 ∧
    ([("anxiety", 2), ("panic", 2)] : List (String × Nat)).Pairwise
      (fun a b : String × Nat => b.2 ≤ a.2) :=
  spec_C3_top_words_order.1 C3db 2 (by decide) (by decide) "X"
    [("anxiety", 2), ("panic", 2)] (by decide)

/-- C5: the stopword filter output is an order-preserving subsequence of
its input keeping exactly the tokens that are not stopwords and have
length strictly greater than 2. -/
theorem spec_C5_stopword_filter :
    ∀ ws : List String,
      (filterWords ws).Sublist ws ∧
      ∀ w, w ∈ filterWords ws ↔ (w ∈ ws ∧ w ∉ STOPWORDS ∧ 2 < w.length) := by
  intro ws
  refine ⟨List.filter_sublist _, fun w => ?_⟩
  unfold filterWords
  rw [List.mem_filter, Bool.and_eq_true, Bool.not_eq_true', decide_eq_true_iff]
  constructor
  · rintro ⟨h1, h2, h3⟩
    refine ⟨h1, fun hmem => ?_, h3⟩
    have hc : STOPWORDS.contains w = true := List.elem_iff.mpr hmem
    rw [hc] at h2
    exact Bool.noConfusion h2
  · rintro ⟨h1, h2, h3⟩
    refine ⟨h1, ?_, h3⟩
    rw [← Bool.not_eq_true]
    intro hcon
    exact h2 (List.elem_iff.mp hcon)

theorem splitOnP_sep_false {α : Type} (p : α → Bool) :
    ∀ (xs : List α), ∀ l ∈ xs.splitOnP p, ∀ c ∈ l, p c = false := by
  intro xs
  induction xs with
  | nil =>
    intro l hl c hc
    rw [List.splitOnP_nil] at hl
    rcases List.mem_singleton.mp hl with rfl
    exact absurd hc (List.not_mem_nil c)
  | cons x xs ih =>
    intro l hl c hc
    rw [List.splitOnP_cons] at hl
    by_cases hx : p x
    · rw [if_pos hx] at hl
      rcases List.mem_cons.mp hl with rfl | h
      · exact absurd hc (List.not_mem_nil c)
      · exact ih l h c hc
    · rw [if_neg hx] at hl
      obtain ⟨hd, tl, hsplit⟩ := List.exists_cons_of_ne_nil (List.splitOnP_ne_nil p xs)
      rw [hsplit, List.modifyHead_cons] at hl
      rcases List.mem_cons.mp hl with rfl | h
      · rcases List.mem_cons.mp hc with rfl | h'
        · exact Bool.not_eq_true _ ▸ hx
        · exact ih hd (hsplit ▸ List.mem_cons_self hd tl) c h'
      · exact ih l (hsplit ▸ List.mem_cons_of_mem hd h) c hc

/-- C6 counterexample: the claimed post-filter token list
`["well", "being", "hard"]` is wrong — `"being"` is a member of the
code's `STOPWORDS` set, so the filter drops it. -/
theorem spec_C6_counterexample :
    filterWords (tokenize "Well-Being is hard") ≠ ["well", "being", "hard"] := by
  decide

/-- C6 (amended): the tokenizer lowercases the text and returns the
maximal runs of word characters in order — on the example,
`["well", "being", "is", "hard"]` — and every token is a non-empty run of
word characters; but stopword filtering the example yields
`["well", "hard"]` (not the spec's `["well", "being", "hard"]`), since
`"being"` is in the stopword set. -/
theorem spec_C6_tokenizer :
    tokenize "Well-Being is hard" = ["well", "being", "is", "hard"] ∧
    filterWords (tokenize "Well-Being is hard") = ["well", "hard"] ∧
    (∀ s : String, ∀ t ∈ tokenize s, t ≠ "" ∧ ∀ c ∈ t.data, isWordChar c = true) := by
  refine ⟨by decide, by decide, ?_⟩
  intro s t ht
  unfold tokenize at ht
  rw [List.mem_map] at ht
  obtain ⟨l, hl, rfl⟩ := ht
  rw [List.mem_filter] at hl
  have hne : l ≠ [] := by simpa using hl.2
  constructor
  · intro hempty
    exact hne (congrArg String.data hempty)
  · intro c hc
    have hsep := splitOnP_sep_false (fun c => !isWordChar c) _ l hl.1 c hc
    simpa using hsep

/-- Witness for C6 at the token `"well"` of the example text. -/
theorem spec_C6_witness :
    ("well" : String) ≠ "" ∧ ∀ c ∈ ("well" : String).data, isWordChar c = true :=
  spec_C6_tokenizer.2.2 "Well-Being is hard" "well" (by decide)

/-- C7: a category is a key of the top-words (resp. length-stats) output
iff the table has at least one qualifying row for it — non-empty stripped
status and non-NULL, non-empty clean text (resp. additionally a word
count in `1..400`); a category with no qualifying data is absent, never
an error. -/
theorem spec_C7_category_presence :
    ∀ (db : List Record) (n : Nat) (c : String),
      ((List.lookup c (top_words_per_category db n)).isSome ↔
        ∃ r ∈ db, statusOk r = true ∧ cleanOk r = true ∧
          pyStrip (r.status.getD "") = c ∧ c ≠ "") ∧
      ((List.lookup c (length_stats_per_category db)).isSome ↔
        ∃ r ∈ db, statusOk r = true ∧ cleanOk r = true ∧
          pyStrip (r.status.getD "") = c ∧ c ≠ "" ∧
          1 ≤ wordCount (r.clean_statement.getD "") ∧
          wordCount (r.clean_statement.getD "") ≤ 400) := by
  intro db n c
  constructor
  · rw [top_words_lookup]
    by_cases h : groupVals (twRows db) c = []
    · rw [if_pos h]
      simp only [Option.isSome_none, Bool.false_eq_true, false_iff]
      rintro ⟨r, hr, hok, hcl, hstrip, hc⟩
      have hmem : (c, r.clean_statement.getD "") ∈ twRows db :=
        (mem_twRows db c _).mpr ⟨r, hr, hok, hcl, hstrip, hc, rfl⟩
      exact (groupVals_ne_nil_iff (twRows db) c).mpr ⟨_, hmem⟩ h
    · rw [if_neg h]
      simp only [Option.isSome_some, true_iff]
      obtain ⟨t, ht⟩ := (groupVals_ne_nil_iff (twRows db) c).mp h
      obtain ⟨r, hr, hok, hcl, hstrip, hc, _⟩ := (mem_twRows db c t).mp ht
      exact ⟨r, hr, hok, hcl, hstrip, hc⟩
  · rw [length_stats_lookup]
    by_cases h : groupVals (lsRows db) c = []
    · rw [if_pos h]
      simp only [Option.isSome_none, Bool.false_eq_true, false_iff]
      rintro ⟨r, hr, hok, hcl, hstrip, hc, h1, h400⟩
      have hmem : (c, wordCount (r.clean_statement.getD "")) ∈ lsRows db :=
        (mem_lsRows db c _).mpr ⟨r, hr, hok, hcl, hstrip, hc, rfl, h1, h400⟩
      exact (groupVals_ne_nil_iff (lsRows db) c).mpr ⟨_, hmem⟩ h
    · rw [if_neg h]
      simp only [Option.isSome_some, true_iff]
      obtain ⟨m, hm⟩ := (groupVals_ne_nil_iff (lsRows db) c).mp h
      obtain ⟨r, hr, hok, hcl, hstrip, hc, hwc, h1, h400⟩ := (mem_lsRows db c m).mp hm
      exact ⟨r, hr, hok, hcl, hstrip, hc, by rw [hwc]; exact h1, by rw [hwc]; exact h400⟩

theorem examples_eq_map_take (db : List Record) (s : String) (n : Nat) :
    examples_by_category db s n =
      ((sortById (db.filter (fun r => r.status == some s && cleanOk r))).take n).map
        (fun r => r.clean_statement.getD "") := by
  unfold examples_by_category
  apply List.filter_eq_self.mpr
  intro t ht
  rw [List.mem_map] at ht
  obtain ⟨r, hr, hrt⟩ := ht
  have hr' : r ∈ db.filter (fun r => r.status == some s && cleanOk r) :=
    (List.perm_insertionSort idLe _).subset (List.take_subset _ _ hr)
  rw [List.mem_filter] at hr'
  have hclean : cleanOk r = true := ((Bool.and_eq_true _ _).mp hr'.2).2
  rw [← hrt]
  unfold cleanOk at hclean
  match hcs : r.clean_statement with
  | none => rw [hcs] at hclean; exact Bool.noConfusion hclean
  | some t' =>
    rw [hcs] at hclean
    simpa using hclean

/-- C4: the examples endpoint returns the clean texts of at most `n` rows
whose stored status equals the parameter exactly and whose clean text is
non-NULL and non-empty, taken in ascending id order; with no exact match
it returns the empty sequence; on ids `[10,11,12]` with `n = 2` it
returns the texts of ids 10 and 11 only. -/
theorem spec_C4_examples :
    (∀ (db : List Record) (s : String) (n : Nat), 1 ≤ n → n ≤ 50 →
      (examples_by_category db s n).length ≤ n ∧
      ((∀ r ∈ db, r.status ≠ some s) → examples_by_category db s n = []) ∧
      (∃ rs : List Record,
        rs.Pairwise (fun a b : Record => a.id ≤ b.id) ∧
        (∀ r ∈ rs, r ∈ db ∧ r.status = some s ∧ cleanOk r = true) ∧
        examples_by_category db s n =
          rs.map (fun r => r.clean_statement.getD ""))) ∧
    examples_by_category C4db "Anxiety" 2 = ["t10", "t11"] := by
  constructor
  · intro db s n _ _
    refine ⟨?_, ?_, ?_⟩
    · rw [examples_eq_map_take, List.length_map]
      exact List.length_take_le _ _
    · intro hnone
      have hfil : db.filter (fun r => r.status == some s && cleanOk r) = [] := by
        rw [List.filter_eq_nil_iff]
        intro r hr
        rw [Bool.and_eq_true]
        rintro ⟨hst, _⟩
        exact hnone r hr (by simpa using hst)
      rw [examples_eq_map_take, hfil]
      simp [sortById]
    · refine ⟨(sortById (db.filter (fun r => r.status == some s && cleanOk r))).take n,
        ?_, ?_, examples_eq_map_take db s n⟩
      · have hsorted : (sortById (db.filter
            (fun r => r.status == some s && cleanOk r))).Pairwise idLe :=
          List.sorted_insertionSort idLe _
        exact (hsorted.sublist (List.take_sublist _ _)).imp (fun h => h)
      · intro r hr
        have hr' : r ∈ db.filter (fun r => r.status == some s && cleanOk r) :=
          (List.perm_insertionSort idLe _).subset (List.take_subset _ _ hr)
        rw [List.mem_filter, Bool.and_eq_true] at hr'
        exact ⟨hr'.1, by simpa using hr'.2.1, hr'.2.2⟩
  · decide

/-- Witness for C4 at the concrete table `C4db`, status `"Anxiety"`,
`n = 2`. -/
theorem spec_C4_witness : (examples_by_category C4db "Anxiety" 2).length ≤ 2 :=
  (spec_C4_examples.1 C4db "Anxiety" 2 (by decide) (by decide)).1

/-- C8: looking up an id with no matching record yields the client 404
error whose message embeds the requested id; an id with a matching record
(ids being unique) yields that record. -/
theorem spec_C8_read_by_id :
    ∀ (db : List Record) (rid : Int),
      ((∀ r ∈ db, r.id ≠ rid) →
        read_response_by_id db rid =
          Except.error
            (404, "Response dengan id=" ++ toString rid ++ " tidak ditemukan.")) ∧
      (∀ r ∈ db, r.id = rid →
        (∀ a ∈ db, ∀ b ∈ db, a.id = b.id → a = b) →
        read_response_by_id db rid = Except.ok r) := by
  intro db rid
  constructor
  · intro h
    unfold read_response_by_id
    have hfind : db.find? (fun r => r.id == rid) = none := by
      rw [List.find?_eq_none]
      intro r hr
      simpa using h r hr
    rw [hfind]
  · intro r hr hid huniq
    unfold read_response_by_id
    rcases hf : db.find? (fun r => r.id == rid) with _ | x
    · rw [List.find?_eq_none] at hf
      exact absurd (by simpa using hid) (hf r hr)
    · have hxmem : x ∈ db := List.mem_of_find?_eq_some hf
      have hxid : x.id = rid := by simpa using List.find?_some hf
      rw [hf, huniq x hxmem r hr (by rw [hxid, hid])]

/-- Witness for C8 at the concrete table `C4db`: id 99 is missing, id 10
is present. -/
theorem spec_C8_witness :
    read_response_by_id C4db 99 =
      Except.error
        (404, "Response dengan id=" ++ toString (99 : Int) ++ " tidak ditemukan.") ∧
    read_response_by_id C4db 10 = Except.ok ⟨10, "", some "t10", some "Anxiety"⟩ :=
  ⟨(spec_C8_read_by_id C4db 99).1 (by decide),
   (spec_C8_read_by_id C4db 10).2 ⟨10, "", some "t10", some "Anxiety"⟩ (by decide)
     (by decide) (by decide)⟩

/-- C10: the listing endpoint returns the table sorted by id ascending
with the first `skip` entries dropped and at most `limit` kept; with
unique ids the page is strictly ascending and disjoint from the next
page, so pagination is deterministic and non-overlapping. -/
theorem spec_C10_pagination :
    ∀ (db : List Record) (skip limit : Nat), 1 ≤ limit → limit ≤ 100 →
      (read_all_responses db skip limit).length ≤ limit ∧
      (sortById db).Perm db ∧
      read_all_responses db skip limit = ((sortById db).drop skip).take limit ∧
      (List.Pairwise (fun a b : Record => a.id ≠ b.id) db →
        (read_all_responses db skip limit).Pairwise (fun a b : Record => a.id < b.id) ∧
        ∀ limit2 : Nat, ∀ r ∈ read_all_responses db skip limit,
          r ∉ read_all_responses db (skip + limit) limit2) := by
  intro db skip limit _ _
  refine ⟨List.length_take_le _ _, List.perm_insertionSort idLe db, rfl, ?_⟩
  intro hids
  have hperm : (sortById db).Perm db := List.perm_insertionSort idLe db
  have hsorted : (sortById db).Pairwise idLe := List.sorted_insertionSort idLe db
  have hsne : (sortById db).Pairwise (fun a b : Record => a.id ≠ b.id) :=
    (hperm.pairwise_iff (fun h heq => h heq.symm)).mpr hids
  constructor
  · have hpage : (read_all_responses db skip limit).Sublist (sortById db) :=
      ((List.take_sublist _ _).trans (List.drop_sublist _ _))
    have hcomb := (hsorted.and hsne).sublist hpage
    exact hcomb.imp (fun h => lt_of_le_of_ne h.1 h.2)
  · intro limit2 r hr hr2
    have hnodup : db.Nodup := hids.imp (fun h heq => h (congrArg Record.id heq))
    have hsnodup : (sortById db).Nodup := hperm.nodup_iff.mpr hnodup
    have hxs : ((sortById db).drop skip).Nodup :=
      (List.drop_sublist _ _).nodup hsnodup
    have hdisj : List.Disjoint (((sortById db).drop skip).take limit)
        (((sortById db).drop skip).drop limit) := by
      have hsplit := List.take_append_drop limit ((sortById db).drop skip)
      have := (List.nodup_append.mp (hsplit.symm ▸ hxs))
      exact this.2.2
    have hr2' : r ∈ ((sortById db).drop skip).drop limit := by
      have hdd : (sortById db).drop (skip + limit) =
          ((sortById db).drop skip).drop limit := by
        rw [List.drop_drop, Nat.add_comm]
      have hsub : r ∈ (sortById db).drop (skip + limit) :=
        List.take_subset _ _ hr2
      rwa [hdd] at hsub
    exact hdisj hr hr2'

/-- Witness for C10 at the concrete table `C4db`, `skip = 1`,
`limit = 2`. -/
theorem spec_C10_witness :
    (read_all_responses C4db 1 2).Pairwise (fun a b : Record => a.id < b.id) :=
  ((spec_C10_pagination C4db 1 2 (by decide) (by decide)).2.2.2 (by decide)).1

end SentimentAnalysis
